import Mathlib

/-!
Verification development for the hyperDN correlation page
(source: the corr page module of the repository).

The correlation engine is embedded shallowly:

* JavaScript numbers are embedded as exact rationals; the one square root
  in the source (the Pearson denominators) is kept symbolic in a
  CorrVal record and interpreted into the reals by CorrVal.toReal.
* JavaScript records keyed by asset name are embedded as association
  lists in insertion order; object indexing is embedded as lookupRec.
* The stable Array.prototype.sort with a numeric comparator is embedded
  as List.insertionSort, which is stable.
* A promise that can reject is embedded as Except String; the
  fan-out/fan-in (Promise.all inside the try of fetchCorrMatrix, caught
  by its catch) is embedded as collectReturns.
-/

/-- Asset as used by the corr page.  In the source, openInterest is a
decimal string that is parsed with parseFloat exactly once (in the volume
proxy); it is embedded directly as its parsed rational value. -/
structure Asset where
  name : String
  openInterest : ℚ
  currentPrice : ℚ
  assetIndex : ℕ
deriving DecidableEq, Repr

/-- One daily candle bar as consumed by fetchCandles: its timestamp t
(field t of the JSON bar; an absent t is embedded as 0, collapsing the
source expression a.t || 0) and its close c (the source parses the close
string with parseFloat, with an absent close treated as the string "0";
it is embedded as the parsed rational value). -/
structure CandleBar where
  t : ℕ
  c : ℚ
deriving DecidableEq, Repr

/-- An HTTP response for the candleSnapshot request: ok mirrors
response.ok, and body is some bars when the decoded JSON is an array
(Array.isArray), none otherwise. -/
structure HttpResp where
  ok : Bool
  body : Option (List CandleBar)
deriving DecidableEq, Repr

/-- Outcome of awaiting one per-asset history fetch: threw embeds a
rejected promise (network failure or a response.json() throw), resp
embeds a delivered response. -/
inductive FetchOutcome where
  | threw (msg : String)
  | resp (r : HttpResp)
deriving DecidableEq, Repr

/-- The sort step of fetchCandles: candles.sort((a, b) => (a.t || 0) - (b.t || 0)),
a stable ascending sort on the timestamp, embedded as a stable insertion
sort on t. -/
def sortCandles (candles : List CandleBar) : List CandleBar :=
  candles.insertionSort (fun x y => x.t ≤ y.t)

/-- fetchCandles after the response arrived: a non-ok response yields [],
a non-array body yields [] (via candles = []), an empty bar list yields
[], and otherwise the bars are sorted by timestamp and mapped to their
closes. -/
def fetchCandles (r : HttpResp) : List ℚ :=
  if !r.ok then []
  else
    let candles := r.body.getD []
    if candles.length = 0 then []
    else (sortCandles candles).map (fun candle => candle.c)

/-- The awaited value of one per-asset fetch: a rejected promise stays an
error (fetchCandles has no try/catch, so a rejection propagates to the
caller), a delivered response is processed by fetchCandles. -/
def awaitCandles (o : FetchOutcome) : Except String (List ℚ) :=
  match o with
  | .threw msg => .error msg
  | .resp r => .ok (fetchCandles r)

/-- computeReturns: (close - prev_close) / prev_close for consecutive
closes; fewer than 2 closes yield []. The source maps over
closes.slice(1) with index i into closes, i.e. pairs closes[i+1] with
closes[i]; embedded as zipWith over (closes.drop 1) and closes. -/
def computeReturns (closes : List ℚ) : List ℚ :=
  if closes.length < 2 then []
  else List.zipWith (fun close prev => (close - prev) / prev) (closes.drop 1) closes

/-- The exact value of a stored correlation number.  Every correlation
the source computes is either 0 or num / (sqrt sA * sqrt sB) with num,
sA, sB rational; CorrVal keeps these three rationals and
CorrVal.toReal interprets them.  The zero of the source (both the
low-data 0 and the constant-series 0) is represented by num = 0 with
denominators 1. -/
structure CorrVal where
  num : ℚ
  sA : ℚ
  sB : ℚ
deriving DecidableEq, Repr

def CorrVal.zero : CorrVal := ⟨0, 1, 1⟩

/-- Real value of a CorrVal: num / (sqrt sA * sqrt sB). -/
noncomputable def CorrVal.toReal (v : CorrVal) : ℝ :=
  (v.num : ℝ) / (Real.sqrt (v.sA : ℚ) * Real.sqrt (v.sB : ℚ))

/-- Multiplication by 100 of a stored correlation (the source computes
corr * 100 when storing a cell). -/
def CorrVal.scale100 (v : CorrVal) : CorrVal :=
  ⟨v.num * 100, v.sA, v.sB⟩

/-- Result of pearsonCorr: the correlation value and the low-data flag. -/
structure PearsonResult where
  corr : CorrVal
  isLowData : Bool
deriving DecidableEq, Repr

/-- pearsonCorr.  Mirrors the source line by line: minLen, the 5-point
guard, the two truncated slices, the means, the covariance-like
numerator (the source reduces over aSlice with index i into bSlice,
embedded as a zipWith over the two equal-length slices) and the two
sums of squared deviations sA and sB.  The source computes
denA = sqrt sA, denB = sqrt sB and tests denA && denB; since sA and sB
are sums of squares, denA and denB are nonzero exactly when sA and sB
are, so the truthiness test is embedded as sA ≠ 0 ∧ sB ≠ 0, and the
quotient num / (denA * denB) is kept symbolically as the CorrVal
⟨num, sA, sB⟩. -/
def pearsonCorr (returnsA returnsB : List ℚ) : PearsonResult :=
  let minLen := min returnsA.length returnsB.length
  if minLen < 5 then ⟨CorrVal.zero, true⟩
  else
    let aSlice := returnsA.take minLen
    let bSlice := returnsB.take minLen
    let n : ℚ := (minLen : ℚ)
    let meanA := aSlice.sum / n
    let meanB := bSlice.sum / n
    let num := (List.zipWith (fun a b => (a - meanA) * (b - meanB)) aSlice bSlice).sum
    let sA := (aSlice.map (fun r => (r - meanA) ^ 2)).sum
    let sB := (bSlice.map (fun r => (r - meanB) ^ 2)).sum
    ⟨if sA ≠ 0 ∧ sB ≠ 0 then ⟨num, sA, sB⟩ else CorrVal.zero, false⟩

/-- One stored matrix cell: { corr: corr * 100, lowData: isLowData }. -/
structure StoredCell where
  corr : CorrVal
  lowData : Bool
deriving DecidableEq, Repr

/-- A correlation matrix: a record of records keyed by asset name, kept
in insertion order. -/
abbrev CorrMatrix := List (String × List (String × StoredCell))

/-- Indexing a record embedded as an association list (first binding for
the key; every binding the builders below create for a given key holds
the same value, so this agrees with the JavaScript last-write-wins
object semantics). -/
def lookupRec {α : Type} (m : List (String × α)) (k : String) : Option α :=
  (m.find? (fun p => p.1 == k)).map Prod.snd

/-- Two-level indexing matrix[a][b]. -/
def lookupCell (m : CorrMatrix) (a b : String) : Option StoredCell :=
  (lookupRec m a).bind (fun row => lookupRec row b)

/-- The cell the builder stores for the ordered pair of names (a, b):
pearsonCorr on the two return series, corr scaled by 100. -/
def cellFor (rm : String → List ℚ) (aName bName : String) : StoredCell :=
  let r := pearsonCorr (rm aName) (rm bName)
  ⟨r.corr.scale100, r.isLowData⟩

/-- The full matrix of fetchCorrMatrix: for every assetA a row holding a
cell for every assetB. -/
def buildFullMatrix (assets : List Asset) (rm : String → List ℚ) : CorrMatrix :=
  assets.map (fun assetA =>
    (assetA.name, assets.map (fun assetB => (assetB.name, cellFor rm assetA.name assetB.name))))

/-- The coverage filter of fetchCorrMatrix: keep assetA when the count of
lowData cells in its row over the full asset list, divided by the length
of the full asset list, is at most 0.8.  The source reads the cells back
from fullMatrix[assetA.name][assetB.name]; that lookup always yields
cellFor rm assetA.name assetB.name (rows and cells are keyed by name and
every binding for a name holds the same value), so the predicate is
embedded with cellFor directly. -/
def validAssets (assets : List Asset) (rm : String → List ℚ) : List Asset :=
  assets.filter (fun assetA =>
    let totalCells : ℚ := (assets.length : ℚ)
    let lowDataCells : ℚ :=
      ((assets.filter (fun assetB => (cellFor rm assetA.name assetB.name).lowData)).length : ℚ)
    decide (lowDataCells / totalCells ≤ (0.8 : ℚ)))

/-- The rebuilt slim matrix: rows and cells only for valid assets, cells
copied from the full matrix (the source copies
fullMatrix[assetA.name][assetB.name]; as above that value is
cellFor rm assetA.name assetB.name). -/
def buildReducedMatrix (assets : List Asset) (rm : String → List ℚ) : CorrMatrix :=
  (validAssets assets rm).map (fun assetA =>
    (assetA.name, (validAssets assets rm).map
      (fun assetB => (assetB.name, cellFor rm assetA.name assetB.name))))

/-- The volume proxy parseFloat(openInterest) * currentPrice. -/
def assetVol (a : Asset) : ℚ := a.openInterest * a.currentPrice

/-- The descending stable sort by volume proxy ([...validAssets].sort
with comparator volB - volA), embedded as a stable insertion sort. -/
def sortByVolume (l : List Asset) : List Asset :=
  l.insertionSort (fun x y => assetVol y ≤ assetVol x)

/-- The result record of fetchCorrMatrix. -/
structure MatrixResult where
  matrix : CorrMatrix
  sortedAssets : List Asset
deriving DecidableEq, Repr

/-- The synchronous tail of fetchCorrMatrix once every return series is
resolved: full matrix, coverage filter, slim matrix, volume sort. -/
def buildResult (assets : List Asset) (rm : String → List ℚ) : MatrixResult :=
  ⟨buildReducedMatrix assets rm, sortByVolume (validAssets assets rm)⟩

/-- The fan-out/fan-in of fetchCorrMatrix: one fetch per asset, awaited
together (Promise.all).  A single rejected per-asset promise rejects the
join, which the try/catch of fetchCorrMatrix then catches; a resolved
join yields the entries of returnsMap in asset order, each the
computeReturns of that asset's closes. -/
def collectReturns : List Asset → (String → FetchOutcome) →
    Except String (List (String × List ℚ))
  | [], _ => .ok []
  | asset :: rest, fetch =>
    match awaitCandles (fetch asset.name) with
    | .error e => .error e
    | .ok closes =>
      match collectReturns rest fetch with
      | .error e => .error e
      | .ok entries => .ok ((asset.name, computeReturns closes) :: entries)

/-- Reading returnsMap[name]; every binding collectReturns creates for a
given name holds the same value, so the first binding agrees with the
JavaScript object. A name never fetched is embedded as the empty series
(such a read does not occur in the source: the builder only reads names
of fetched assets). -/
def returnsMapOf (entries : List (String × List ℚ)) : String → List ℚ :=
  fun n => (lookupRec entries n).getD []

/-- fetchCorrMatrix: resolve every asset's return series, then run the
synchronous pipeline; any uncaught rejection inside the try lands in the
catch, which returns the empty matrix and the empty sorted list. -/
def fetchCorrMatrix (assets : List Asset) (fetch : String → FetchOutcome) : MatrixResult :=
  match collectReturns assets fetch with
  | .error _ => ⟨[], []⟩
  | .ok entries => buildResult assets (returnsMapOf entries)

/-- Whether an awaited fetch outcome is a rejected promise. -/
def FetchOutcome.isThrew : FetchOutcome → Bool
  | .threw _ => true
  | .resp _ => false

/-- The closes an awaited, non-rejecting outcome delivers (the threw case
is unreachable under that hypothesis and is mapped to []). -/
def candlesOf : FetchOutcome → List ℚ
  | .threw _ => []
  | .resp r => fetchCandles r

/-- The entries of returnsMap once every per-asset promise has resolved
without rejecting: one binding per asset, in asset order. -/
def resolvedEntries (assets : List Asset) (fetch : String → FetchOutcome) :
    List (String × List ℚ) :=
  assets.map (fun a => (a.name, computeReturns (candlesOf (fetch a.name))))

/-- The resolved returnsMap as a function of the asset name. -/
def resolvedReturns (assets : List Asset) (fetch : String → FetchOutcome) :
    String → List ℚ :=
  returnsMapOf (resolvedEntries assets fetch)

/-- The fraction of lowData cells in the row of asset A of the full
matrix, over the original full asset list (the quantity the coverage
filter compares against 0.8). -/
def lowDataFraction (assets : List Asset) (rm : String → List ℚ) (A : Asset) : ℚ :=
  ((assets.filter (fun assetB => (cellFor rm A.name assetB.name).lowData)).length : ℚ)
    / ((assets.length : ℚ))

/-- Mean of a list of rationals (sum divided by length). In pearsonCorr
the divisor n is minLen, which equals the length of either slice. -/
def listMean (l : List ℚ) : ℚ := l.sum / (l.length : ℚ)

/-- Mean-centered copy of a list. -/
def devs (l : List ℚ) : List ℚ := l.map (fun r => r - listMean l)

/-- Sum of squared deviations from the mean (the quantity under the
square root in denA and denB of pearsonCorr). -/
def sqSum (l : List ℚ) : ℚ := ((devs l).map (fun d => d ^ 2)).sum

/-- The covariance-like numerator of pearsonCorr for two equal-length
slices. -/
def covSum (x y : List ℚ) : ℚ :=
  (List.zipWith (fun dx dy => dx * dy) (devs x) (devs y)).sum

/-- The truncated first slice of pearsonCorr. -/
def sliceA (a b : List ℚ) : List ℚ := a.take (min a.length b.length)

/-- The truncated second slice of pearsonCorr. -/
def sliceB (a b : List ℚ) : List ℚ := b.take (min a.length b.length)

/-- The cached data object (wrapped under the data field). -/
structure CachedData where
  matrix : CorrMatrix
  sortedAssets : List Asset
deriving DecidableEq, Repr

/-- The parsed state of the stored cache payload: malformed embeds a
JSON.parse throw; parsed holds the timestamp and the data field, with
none embedding a falsy data field. -/
inductive CachedPayload where
  | malformed (raw : String)
  | parsed (timestamp : ℤ) (dat : Option CachedData)
deriving DecidableEq, Repr

/-- What the cache read decides: use the stored data, or recompute; the
Boolean records whether the stored payload was removed
(localStorage.removeItem). -/
inductive CacheDecision where
  | useCache (d : CachedData)
  | recompute (removedStored : Bool)
deriving DecidableEq, Repr

/-- The freshness window: 7 days in milliseconds. -/
def freshWindowMs : ℤ := 604800000

/-- The cache read at the top of the CorrPage effect: no stored entry
falls through to a fresh load; a JSON.parse throw removes the entry and
recomputes; a parsed entry is used only when its data field is truthy
and now - timestamp < 604800000, otherwise the entry is removed and a
fresh load runs. -/
def readCache (entry : Option CachedPayload) (now : ℤ) : CacheDecision :=
  match entry with
  | none => .recompute false
  | some (.malformed _) => .recompute true
  | some (.parsed timestamp dat) =>
    match dat with
    | some d =>
      if now - timestamp < freshWindowMs then .useCache d
      else .recompute true
    | none => .recompute true

/-- Concrete return-series assignment used to instantiate theorems on a
concrete input. -/
def rmW : String → List ℚ := fun n => if n == "A" then [0, 1, 0, 1, 0] else [1, 0, 1, 0, 1]

/-- Concrete two-asset list used to instantiate theorems on a concrete
input. -/
def assetsW : List Asset := [⟨"A", 1, 1, 0⟩, ⟨"B", 2, 1, 1⟩]

/-- Concrete fetch assignment where asset B gets a non-ok response and
every other asset a normal candle history. -/
def fetchW : String → FetchOutcome := fun n =>
  if n == "B" then .resp ⟨false, none⟩
  else .resp ⟨true, some [⟨0, 1⟩, ⟨1, 2⟩, ⟨2, 1⟩, ⟨3, 2⟩, ⟨4, 1⟩, ⟨5, 2⟩]⟩

instance candleLeTotal : IsTotal CandleBar (fun x y => x.t ≤ y.t) :=
  ⟨fun a b => Nat.le_total a.t b.t⟩

instance candleLeTrans : IsTrans CandleBar (fun x y => x.t ≤ y.t) :=
  ⟨fun _ _ _ hab hbc => Nat.le_trans hab hbc⟩

lemma lookupRec_map {α β : Type} (l : List α) (key : α → String) (f : String → β) (k : String) :
    lookupRec (l.map (fun x => (key x, f (key x)))) k
      = if k ∈ l.map key then some (f k) else none := by
  induction l with
  | nil => simp [lookupRec]
  | cons a t ih =>
    by_cases h : key a = k
    · subst h
      simp [lookupRec, List.find?_cons]
    · have hb : (key a == k) = false := by simp [h]
      have hk : ¬ k = key a := fun e => h e.symm
      simp only [List.map_cons, lookupRec, List.find?_cons, hb] at ih ⊢
      simp [lookupRec] at ih
      simp [ih, hk, h]

lemma lookupCell_buildFull (assets : List Asset) (rm : String → List ℚ) (a b : String) :
    lookupCell (buildFullMatrix assets rm) a b
      = if a ∈ assets.map Asset.name ∧ b ∈ assets.map Asset.name
        then some (cellFor rm a b) else none := by
  unfold lookupCell buildFullMatrix
  rw [lookupRec_map assets Asset.name
    (fun nA => assets.map (fun assetB => (assetB.name, cellFor rm nA assetB.name))) a]
  by_cases ha : a ∈ assets.map Asset.name
  · rw [if_pos ha, Option.some_bind,
      lookupRec_map assets Asset.name (fun nB => cellFor rm a nB) b]
    by_cases hb : b ∈ assets.map Asset.name
    · rw [if_pos hb, if_pos ⟨ha, hb⟩]
    · rw [if_neg hb, if_neg (fun hc => hb hc.2)]
  · simp [ha]

lemma lookupCell_buildReduced (assets : List Asset) (rm : String → List ℚ) (a b : String) :
    lookupCell (buildReducedMatrix assets rm) a b
      = if a ∈ (validAssets assets rm).map Asset.name
          ∧ b ∈ (validAssets assets rm).map Asset.name
        then some (cellFor rm a b) else none := by
  unfold lookupCell buildReducedMatrix
  rw [lookupRec_map (validAssets assets rm) Asset.name
    (fun nA => (validAssets assets rm).map
      (fun assetB => (assetB.name, cellFor rm nA assetB.name))) a]
  by_cases ha : a ∈ (validAssets assets rm).map Asset.name
  · rw [if_pos ha, Option.some_bind,
      lookupRec_map (validAssets assets rm) Asset.name (fun nB => cellFor rm a nB) b]
    by_cases hb : b ∈ (validAssets assets rm).map Asset.name
    · rw [if_pos hb, if_pos ⟨ha, hb⟩]
    · rw [if_neg hb, if_neg (fun hc => hb hc.2)]
  · simp [ha]

lemma lookupRec_buildFull (assets : List Asset) (rm : String → List ℚ) (a : String) :
    lookupRec (buildFullMatrix assets rm) a
      = if a ∈ assets.map Asset.name
        then some (assets.map (fun assetB => (assetB.name, cellFor rm a assetB.name)))
        else none := by
  unfold buildFullMatrix
  exact lookupRec_map assets Asset.name
    (fun nA => assets.map (fun assetB => (assetB.name, cellFor rm nA assetB.name))) a

lemma length_sliceA (a b : List ℚ) : (sliceA a b).length = min a.length b.length := by
  rw [sliceA, List.length_take]
  exact Nat.min_eq_left (Nat.min_le_left _ _)

lemma length_sliceB (a b : List ℚ) : (sliceB a b).length = min a.length b.length := by
  rw [sliceB, List.length_take]
  exact Nat.min_eq_left (Nat.min_le_right _ _)

lemma pearsonCorr_low (a b : List ℚ) (h : min a.length b.length < 5) :
    pearsonCorr a b = ⟨CorrVal.zero, true⟩ := by
  unfold pearsonCorr
  rw [if_pos h]

lemma pearsonCorr_computed (a b : List ℚ) (h : ¬ min a.length b.length < 5) :
    pearsonCorr a b =
      ⟨if sqSum (sliceA a b) ≠ 0 ∧ sqSum (sliceB a b) ≠ 0
        then ⟨covSum (sliceA a b) (sliceB a b), sqSum (sliceA a b), sqSum (sliceB a b)⟩
        else CorrVal.zero, false⟩ := by
  have hmA : listMean (sliceA a b) = (sliceA a b).sum / ((min a.length b.length : ℕ) : ℚ) := by
    rw [listMean, length_sliceA]
  have hmB : listMean (sliceB a b) = (sliceB a b).sum / ((min a.length b.length : ℕ) : ℚ) := by
    rw [listMean, length_sliceB]
  unfold pearsonCorr
  rw [if_neg h]
  have hsA : ((a.take (min a.length b.length)).map
      (fun r => (r - (a.take (min a.length b.length)).sum / ((min a.length b.length : ℕ) : ℚ)) ^ 2)).sum
      = sqSum (sliceA a b) := by
    rw [sqSum, devs, List.map_map, hmA]
    rfl
  have hsB : ((b.take (min a.length b.length)).map
      (fun r => (r - (b.take (min a.length b.length)).sum / ((min a.length b.length : ℕ) : ℚ)) ^ 2)).sum
      = sqSum (sliceB a b) := by
    rw [sqSum, devs, List.map_map, hmB]
    rfl
  have hnum : (List.zipWith
      (fun x y => (x - (a.take (min a.length b.length)).sum / ((min a.length b.length : ℕ) : ℚ))
        * (y - (b.take (min a.length b.length)).sum / ((min a.length b.length : ℕ) : ℚ)))
      (a.take (min a.length b.length)) (b.take (min a.length b.length))).sum
      = covSum (sliceA a b) (sliceB a b) := by
    rw [covSum, devs, devs, List.zipWith_map, hmA, hmB]
    rfl
  simp only [hsA, hsB, hnum]

lemma CorrVal.toReal_zero : CorrVal.zero.toReal = 0 := by
  simp [CorrVal.toReal, CorrVal.zero]

lemma CorrVal.toReal_scale100 (v : CorrVal) : v.scale100.toReal = 100 * v.toReal := by
  simp only [CorrVal.toReal, CorrVal.scale100]
  push_cast
  ring

lemma sliceA_symm (a b : List ℚ) : sliceA b a = sliceB a b := by
  rw [sliceA, sliceB, Nat.min_comm]

lemma sliceB_symm (a b : List ℚ) : sliceB b a = sliceA a b := by
  rw [sliceA, sliceB, Nat.min_comm]

lemma covSum_symm (x y : List ℚ) : covSum y x = covSum x y := by
  rw [covSum, covSum, List.zipWith_comm]
  have : (fun dy dx => dy * dx) = fun (dy dx : ℚ) => dx * dy := by
    funext dy dx
    ring
  rw [this]

lemma pearson_isLowData_symm (a b : List ℚ) :
    (pearsonCorr b a).isLowData = (pearsonCorr a b).isLowData := by
  by_cases h : min a.length b.length < 5
  · rw [pearsonCorr_low a b h, pearsonCorr_low b a (by rwa [Nat.min_comm])]
  · rw [pearsonCorr_computed a b h, pearsonCorr_computed b a (by rwa [Nat.min_comm])]

lemma pearson_toReal_symm (a b : List ℚ) :
    (pearsonCorr b a).corr.toReal = (pearsonCorr a b).corr.toReal := by
  by_cases h : min a.length b.length < 5
  · rw [pearsonCorr_low a b h, pearsonCorr_low b a (by rwa [Nat.min_comm])]
  · rw [pearsonCorr_computed a b h, pearsonCorr_computed b a (by rwa [Nat.min_comm])]
    rw [sliceA_symm a b, sliceB_symm a b, covSum_symm (sliceA a b) (sliceB a b)]
    by_cases hg : sqSum (sliceA a b) ≠ 0 ∧ sqSum (sliceB a b) ≠ 0
    · rw [if_pos ⟨hg.2, hg.1⟩, if_pos hg]
      simp only [CorrVal.toReal]
      rw [mul_comm]
    · rw [if_neg (fun hc => hg ⟨hc.2, hc.1⟩), if_neg hg]

lemma cellFor_lowData_symm (rm : String → List ℚ) (x y : String) :
    (cellFor rm y x).lowData = (cellFor rm x y).lowData := by
  simp only [cellFor]
  exact pearson_isLowData_symm _ _

lemma cellFor_toReal_symm (rm : String → List ℚ) (x y : String) :
    (cellFor rm y x).corr.toReal = (cellFor rm x y).corr.toReal := by
  simp only [cellFor, CorrVal.toReal_scale100]
  rw [pearson_toReal_symm]

lemma list_sum_map_eq_range (g : ℚ → ℚ) (l : List ℚ) :
    (l.map g).sum = ∑ i ∈ Finset.range l.length, g (l.getD i 0) := by
  induction l with
  | nil => simp
  | cons x t ih =>
    rw [List.map_cons, List.sum_cons, List.length_cons, Finset.sum_range_succ', ih]
    simp [List.getD_cons_succ, List.getD_cons_zero, add_comm]

lemma list_sum_zipWith_eq_range (f : ℚ → ℚ → ℚ) :
    ∀ (l1 l2 : List ℚ), l1.length = l2.length →
      (List.zipWith f l1 l2).sum = ∑ i ∈ Finset.range l1.length, f (l1.getD i 0) (l2.getD i 0)
  | [], [], _ => by simp
  | [], _ :: _, h => by simp at h
  | _ :: _, [], h => by simp at h
  | x :: t1, y :: t2, h => by
    have ht : t1.length = t2.length := by simpa using h
    rw [List.zipWith_cons_cons, List.sum_cons, List.length_cons, Finset.sum_range_succ',
      list_sum_zipWith_eq_range f t1 t2 ht]
    simp [List.getD_cons_succ, List.getD_cons_zero, add_comm]

lemma devs_length (l : List ℚ) : (devs l).length = l.length := by
  simp [devs]

lemma sqSum_eq_range (l : List ℚ) :
    sqSum l = ∑ i ∈ Finset.range l.length, ((devs l).getD i 0) ^ 2 := by
  rw [sqSum, list_sum_map_eq_range, devs_length]

lemma covSum_eq_range (x y : List ℚ) (h : x.length = y.length) :
    covSum x y = ∑ i ∈ Finset.range x.length, ((devs x).getD i 0) * ((devs y).getD i 0) := by
  rw [covSum, list_sum_zipWith_eq_range _ _ _ (by rw [devs_length, devs_length, h]), devs_length]

lemma covSum_sq_le (x y : List ℚ) (h : x.length = y.length) :
    covSum x y ^ 2 ≤ sqSum x * sqSum y := by
  rw [covSum_eq_range x y h, sqSum_eq_range x, sqSum_eq_range y, ← h]
  exact Finset.sum_mul_sq_le_sq_mul_sq (Finset.range x.length)
    (fun i => (devs x).getD i 0) (fun i => (devs y).getD i 0)

lemma sqSum_nonneg (l : List ℚ) : 0 ≤ sqSum l := by
  rw [sqSum]
  apply List.sum_nonneg
  intro q hq
  rcases List.mem_map.1 hq with ⟨d, _, rfl⟩
  positivity

lemma corrVal_abs_toReal_le_one (v : CorrVal)
    (hA : 0 < v.sA) (hB : 0 < v.sB) (hcs : v.num ^ 2 ≤ v.sA * v.sB) :
    |v.toReal| ≤ 1 := by
  have hAr : (0 : ℝ) < (v.sA : ℝ) := by exact_mod_cast hA
  have hBr : (0 : ℝ) < (v.sB : ℝ) := by exact_mod_cast hB
  have hcsr : ((v.num : ℝ)) ^ 2 ≤ (v.sA : ℝ) * (v.sB : ℝ) := by exact_mod_cast hcs
  have hden : (0 : ℝ) < Real.sqrt (v.sA : ℚ) * Real.sqrt (v.sB : ℚ) :=
    mul_pos (Real.sqrt_pos.2 hAr) (Real.sqrt_pos.2 hBr)
  rw [CorrVal.toReal, abs_div, abs_of_pos hden, div_le_one hden]
  calc |(v.num : ℝ)| = Real.sqrt (((v.num : ℝ)) ^ 2) := (Real.sqrt_sq_eq_abs _).symm
    _ ≤ Real.sqrt ((v.sA : ℝ) * (v.sB : ℝ)) := Real.sqrt_le_sqrt hcsr
    _ = Real.sqrt (v.sA : ℚ) * Real.sqrt (v.sB : ℚ) := Real.sqrt_mul hAr.le _

lemma pearson_abs_toReal_le_one (a b : List ℚ) :
    |(pearsonCorr a b).corr.toReal| ≤ 1 := by
  by_cases h : min a.length b.length < 5
  · rw [pearsonCorr_low a b h]
    simp [CorrVal.toReal_zero]
  · rw [pearsonCorr_computed a b h]
    by_cases hg : sqSum (sliceA a b) ≠ 0 ∧ sqSum (sliceB a b) ≠ 0
    · rw [if_pos hg]
      have hlen : (sliceA a b).length = (sliceB a b).length := by
        rw [length_sliceA, length_sliceB]
      exact corrVal_abs_toReal_le_one _
        (lt_of_le_of_ne (sqSum_nonneg _) (Ne.symm hg.1))
        (lt_of_le_of_ne (sqSum_nonneg _) (Ne.symm hg.2))
        (covSum_sq_le _ _ hlen)
    · rw [if_neg hg]
      simp [CorrVal.toReal_zero]

lemma cellFor_abs_toReal_le (rm : String → List ℚ) (x y : String) :
    |(cellFor rm x y).corr.toReal| ≤ 100 := by
  simp only [cellFor, CorrVal.toReal_scale100, abs_mul]
  have := pearson_abs_toReal_le_one (rm x) (rm y)
  calc |(100 : ℝ)| * |(pearsonCorr (rm x) (rm y)).corr.toReal|
      ≤ |(100 : ℝ)| * 1 := by
        apply mul_le_mul_of_nonneg_left this (abs_nonneg _)
    _ = 100 := by norm_num

lemma listMean_const (l : List ℚ) (c : ℚ) (hne : l ≠ []) (h : ∀ x ∈ l, x = c) :
    listMean l = c := by
  have hsum : l.sum = (l.length : ℚ) * c := by
    induction l with
    | nil => simp
    | cons x t ih =>
      rw [List.sum_cons, List.length_cons, h x (List.mem_cons_self x t)]
      by_cases ht : t = []
      · subst ht
        simp
      · rw [ih ht (fun y hy => h y (List.mem_cons_of_mem x hy))]
        push_cast
        ring
  have hlen : ((l.length : ℚ)) ≠ 0 := by
    have : l.length ≠ 0 := fun hz => hne (List.length_eq_zero.1 hz)
    exact_mod_cast this
  rw [listMean, hsum]
  field_simp

lemma sqSum_const (l : List ℚ) (c : ℚ) (h : ∀ x ∈ l, x = c) : sqSum l = 0 := by
  by_cases hne : l = []
  · subst hne
    simp [sqSum, devs]
  · rw [sqSum, devs, listMean_const l c hne h, List.map_map]
    apply List.sum_eq_zero
    intro q hq
    rcases List.mem_map.1 hq with ⟨x, hx, rfl⟩
    simp [h x hx]

lemma computeReturns_short (closes : List ℚ) (h : closes.length < 2) :
    computeReturns closes = [] := by
  rw [computeReturns, if_pos h]

lemma computeReturns_length (closes : List ℚ) (h : 2 ≤ closes.length) :
    (computeReturns closes).length = closes.length - 1 := by
  rw [computeReturns, if_neg (Nat.not_lt.2 h), List.length_zipWith, List.length_drop]
  omega

lemma computeReturns_getD (closes : List ℚ) (h : 2 ≤ closes.length)
    (i : ℕ) (hi : i < closes.length - 1) :
    (computeReturns closes).getD i 0
      = (closes.getD (i + 1) 0 - closes.getD i 0) / closes.getD i 0 := by
  rw [computeReturns, if_neg (Nat.not_lt.2 h)]
  have hd : i < (closes.drop 1).length := by
    rw [List.length_drop]
    omega
  have hz : i < (List.zipWith (fun close prev => (close - prev) / prev)
      (closes.drop 1) closes).length := by
    rw [List.length_zipWith, List.length_drop]
    omega
  have hc : i < closes.length := by omega
  have h1 : i + 1 < closes.length := by omega
  rw [List.getD_eq_getElem _ _ hz, List.getElem_zipWith,
    List.getD_eq_getElem _ _ h1, List.getD_eq_getElem _ _ hc]
  have he : (closes.drop 1)[i] = closes[i + 1] := by
    rw [List.getElem_drop]
    congr 1
    omega
  rw [he]

lemma mem_validAssets (assets : List Asset) (rm : String → List ℚ) (A : Asset) :
    A ∈ validAssets assets rm ↔ A ∈ assets ∧ lowDataFraction assets rm A ≤ (0.8 : ℚ) := by
  rw [validAssets, List.mem_filter]
  constructor
  · rintro ⟨hmem, hcond⟩
    refine ⟨hmem, ?_⟩
    have := of_decide_eq_true hcond
    rwa [lowDataFraction]
  · rintro ⟨hmem, hfrac⟩
    refine ⟨hmem, ?_⟩
    apply decide_eq_true
    rwa [lowDataFraction] at hfrac

lemma validAssets_sublist (assets : List Asset) (rm : String → List ℚ) :
    A ∈ validAssets assets rm → A ∈ assets := by
  intro h
  exact ((mem_validAssets assets rm A).1 h).1

lemma collectReturns_error (assets : List Asset) (fetch : String → FetchOutcome)
    (h : ∃ a ∈ assets, (fetch a.name).isThrew = true) :
    ∃ e, collectReturns assets fetch = .error e := by
  induction assets with
  | nil => simp at h
  | cons a t ih =>
    rcases h with ⟨x, hx, hthrew⟩
    rcases List.mem_cons.1 hx with rfl | hxt
    · cases hf : fetch x.name with
      | threw msg =>
        exact ⟨msg, by simp [collectReturns, awaitCandles, hf]⟩
      | resp r =>
        rw [hf] at hthrew
        simp [FetchOutcome.isThrew] at hthrew
    · rcases ih ⟨x, hxt, hthrew⟩ with ⟨e, he⟩
      cases hf : fetch a.name with
      | threw msg =>
        exact ⟨msg, by simp [collectReturns, awaitCandles, hf]⟩
      | resp r =>
        exact ⟨e, by simp [collectReturns, awaitCandles, hf, he]⟩

lemma collectReturns_ok (assets : List Asset) (fetch : String → FetchOutcome)
    (h : ∀ a ∈ assets, (fetch a.name).isThrew = false) :
    collectReturns assets fetch = .ok (resolvedEntries assets fetch) := by
  induction assets with
  | nil => simp [collectReturns, resolvedEntries]
  | cons a t ih =>
    have ha := h a (List.mem_cons_self a t)
    cases hf : fetch a.name with
    | threw msg =>
      rw [hf] at ha
      simp [FetchOutcome.isThrew] at ha
    | resp r =>
      have ht := ih (fun x hx => h x (List.mem_cons_of_mem a hx))
      simp [collectReturns, awaitCandles, hf, ht, resolvedEntries, candlesOf]

lemma fetchCandles_notOk (r : HttpResp) (h : r.ok = false) : fetchCandles r = [] := by
  rw [fetchCandles]
  simp [h]

lemma fetchCandles_noBars (r : HttpResp) (h : r.body.getD [] = []) : fetchCandles r = [] := by
  rw [fetchCandles]
  by_cases hok : r.ok
  · simp [hok, h]
  · simp [hok]

lemma returnsMapOf_resolved (assets : List Asset) (fetch : String → FetchOutcome)
    (n : String) (h : n ∈ assets.map Asset.name) :
    resolvedReturns assets fetch n = computeReturns (candlesOf (fetch n)) := by
  rw [resolvedReturns, returnsMapOf, resolvedEntries]
  rw [lookupRec_map assets Asset.name (fun m => computeReturns (candlesOf (fetch m))) n]
  simp [h]

lemma pearsonCorr_left_empty (l : List ℚ) : pearsonCorr [] l = ⟨CorrVal.zero, true⟩ :=
  pearsonCorr_low [] l (by simp)

lemma pearsonCorr_right_empty (l : List ℚ) : pearsonCorr l [] = ⟨CorrVal.zero, true⟩ :=
  pearsonCorr_low l [] (by simp)

/-- C1: matrix symmetry.  For every asset list and every assignment of
return series to asset names, both the full matrix and the reduced
matrix are symmetric: for any two names a and b, the cells at (a, b) and
(b, a) are either both absent or both present with equal correlation
values and equal lowData flags. -/
theorem matrix_symmetry (assets : List Asset) (rm : String → List ℚ) (a b : String) :
    ((lookupCell (buildFullMatrix assets rm) a b).map StoredCell.lowData
      = (lookupCell (buildFullMatrix assets rm) b a).map StoredCell.lowData)
    ∧ ((lookupCell (buildFullMatrix assets rm) a b).map (fun cl => cl.corr.toReal)
      = (lookupCell (buildFullMatrix assets rm) b a).map (fun cl => cl.corr.toReal))
    ∧ ((lookupCell (buildReducedMatrix assets rm) a b).map StoredCell.lowData
      = (lookupCell (buildReducedMatrix assets rm) b a).map StoredCell.lowData)
    ∧ ((lookupCell (buildReducedMatrix assets rm) a b).map (fun cl => cl.corr.toReal)
      = (lookupCell (buildReducedMatrix assets rm) b a).map (fun cl => cl.corr.toReal)) := by
  rw [lookupCell_buildFull assets rm a b, lookupCell_buildFull assets rm b a,
    lookupCell_buildReduced assets rm a b, lookupCell_buildReduced assets rm b a]
  by_cases h1 : a ∈ assets.map Asset.name <;> by_cases h2 : b ∈ assets.map Asset.name <;>
    by_cases h3 : a ∈ (validAssets assets rm).map Asset.name <;>
    by_cases h4 : b ∈ (validAssets assets rm).map Asset.name <;>
    simp [h1, h2, h3, h4, cellFor_lowData_symm, cellFor_toReal_symm]

/-- C2: low-data threshold.  pearsonCorr returns the cell corr = 0,
lowData = true exactly when the overlap min(len a, len b) is below 5;
with overlap at least 5 it is not short-circuited and its lowData flag
is false. -/
theorem lowData_threshold (a b : List ℚ) :
    ((pearsonCorr a b).isLowData = true ↔ min a.length b.length < 5)
    ∧ (min a.length b.length < 5 → pearsonCorr a b = ⟨CorrVal.zero, true⟩)
    ∧ (5 ≤ min a.length b.length → (pearsonCorr a b).isLowData = false) := by
  by_cases h : min a.length b.length < 5
  · rw [pearsonCorr_low a b h]
    exact ⟨by simp [h], fun _ => rfl, fun h5 => absurd h (by omega)⟩
  · rw [pearsonCorr_computed a b h]
    exact ⟨by simp [h], fun hlt => absurd hlt h, fun _ => rfl⟩

/-- Witness for C2 at overlap 4 and overlap 5. -/
theorem lowData_threshold_witness :
    pearsonCorr [(1 : ℚ), 2, 3, 4] [1, 2, 3, 4, 5] = ⟨CorrVal.zero, true⟩
    ∧ (pearsonCorr [(1 : ℚ), 2, 3, 4, 5] [1, 2, 3, 4, 5]).isLowData = false :=
  ⟨(lowData_threshold _ _).2.1 (by decide), (lowData_threshold _ _).2.2 (by decide)⟩

/-- C3: coverage filter boundary.  An asset is kept by the coverage
filter iff it is in the original list and the lowData fraction of its
row, computed over the original full asset list, is at most 0.8 (so it
is dropped iff that fraction strictly exceeds 0.8, and exactly 80
percent is retained); and the rebuilt reduced matrix has a cell at
(a, b) exactly when both names survive, that cell being the unchanged
cell of the full matrix. -/
theorem coverage_filter_boundary (assets : List Asset) (rm : String → List ℚ)
    (A : Asset) (a b : String) :
    (A ∈ validAssets assets rm ↔ A ∈ assets ∧ lowDataFraction assets rm A ≤ (0.8 : ℚ))
    ∧ (A ∉ validAssets assets rm ↔ A ∉ assets ∨ (0.8 : ℚ) < lowDataFraction assets rm A)
    ∧ (lookupCell (buildReducedMatrix assets rm) a b
        = if a ∈ (validAssets assets rm).map Asset.name
            ∧ b ∈ (validAssets assets rm).map Asset.name
          then lookupCell (buildFullMatrix assets rm) a b
          else none) := by
  refine ⟨mem_validAssets assets rm A, ?_, ?_⟩
  · rw [mem_validAssets]
    rw [not_and_or, not_le]
  · rw [lookupCell_buildReduced, lookupCell_buildFull]
    by_cases h : a ∈ (validAssets assets rm).map Asset.name
        ∧ b ∈ (validAssets assets rm).map Asset.name
    · have ha : a ∈ assets.map Asset.name := by
        rcases List.mem_map.1 h.1 with ⟨x, hx, rfl⟩
        exact List.mem_map.2 ⟨x, validAssets_sublist assets rm hx, rfl⟩
      have hb : b ∈ assets.map Asset.name := by
        rcases List.mem_map.1 h.2 with ⟨x, hx, rfl⟩
        exact List.mem_map.2 ⟨x, validAssets_sublist assets rm hx, rfl⟩
      rw [if_pos h, if_pos h, if_pos ⟨ha, hb⟩]
    · rw [if_neg h, if_neg h]

/-- C4: constant-series safety.  For any two return series with overlap
at least 5 of which at least one truncated slice is constant, pearsonCorr
returns the correlation value zero (a well-defined number whose real
value is 0) with lowData = false, rather than NaN, undefined or an
error. -/
theorem constant_series_safety (a b : List ℚ) (c : ℚ)
    (h5 : 5 ≤ min a.length b.length)
    (hconst : (∀ x ∈ a.take (min a.length b.length), x = c)
      ∨ (∀ x ∈ b.take (min a.length b.length), x = c)) :
    (pearsonCorr a b).corr = CorrVal.zero
    ∧ (pearsonCorr a b).corr.toReal = 0
    ∧ (pearsonCorr a b).isLowData = false := by
  have h : ¬ min a.length b.length < 5 := by omega
  have hzero : ¬ (sqSum (sliceA a b) ≠ 0 ∧ sqSum (sliceB a b) ≠ 0) := by
    rcases hconst with hca | hcb
    · exact fun hg => hg.1 (sqSum_const _ c hca)
    · exact fun hg => hg.2 (sqSum_const _ c hcb)
  rw [pearsonCorr_computed a b h]
  simp only [if_neg hzero]
  simp [CorrVal.toReal_zero]

/-- Witness for C4 on a constant all-zero series of length 5. -/
theorem constant_series_safety_witness :
    (pearsonCorr [(0 : ℚ), 0, 0, 0, 0] [1, 2, 3, 4, 5]).corr = CorrVal.zero
    ∧ (pearsonCorr [(0 : ℚ), 0, 0, 0, 0] [1, 2, 3, 4, 5]).corr.toReal = 0 :=
  ⟨(constant_series_safety _ _ 0 (by decide) (Or.inl (by decide))).1,
   (constant_series_safety _ _ 0 (by decide) (Or.inl (by decide))).2.1⟩

/-- C5: correlation range.  Every cell stored in the full correlation
matrix has its (100-scaled) correlation value within [-100, 100]; the
non-low-data value num / (denA * denB) scaled by 100 stays in range by
the Cauchy-Schwarz inequality, and the reduced matrix only copies these
cells (see the C3 theorem). -/
theorem correlation_range (assets : List Asset) (rm : String → List ℚ) (a b : String)
    (cell : StoredCell)
    (h : lookupCell (buildFullMatrix assets rm) a b = some cell) :
    -100 ≤ cell.corr.toReal ∧ cell.corr.toReal ≤ 100 := by
  rw [lookupCell_buildFull] at h
  by_cases hm : a ∈ assets.map Asset.name ∧ b ∈ assets.map Asset.name
  · rw [if_pos hm] at h
    cases Option.some.inj h
    exact abs_le.1 (cellFor_abs_toReal_le rm a b)
  · rw [if_neg hm] at h
    cases h

/-- Witness for C5 on a concrete two-asset matrix cell. -/
theorem correlation_range_witness :
    -100 ≤ (cellFor rmW "A" "B").corr.toReal ∧ (cellFor rmW "A" "B").corr.toReal ≤ 100 :=
  correlation_range assetsW rmW "A" "B" _ rfl

/-- C6: return series computation.  computeReturns maps a price list of
length 0 or 1 to the empty list (no division attempted), and a list of
length at least 2 to a list one shorter whose element i is
(price[i+1] - price[i]) / price[i]. -/
theorem returns_series_computation (closes : List ℚ) :
    (closes.length < 2 → computeReturns closes = [])
    ∧ (2 ≤ closes.length →
        (computeReturns closes).length = closes.length - 1
        ∧ ∀ i, i < closes.length - 1 →
            (computeReturns closes).getD i 0
              = (closes.getD (i + 1) 0 - closes.getD i 0) / closes.getD i 0) :=
  ⟨computeReturns_short closes,
   fun h => ⟨computeReturns_length closes h, fun i hi => computeReturns_getD closes h i hi⟩⟩

/-- Witness for C6 on concrete price lists. -/
theorem returns_series_computation_witness :
    computeReturns [(5 : ℚ)] = []
    ∧ (computeReturns [(1 : ℚ), 2, 4]).length = 2
    ∧ (computeReturns [(1 : ℚ), 2, 4]).getD 1 0
        = (([(1 : ℚ), 2, 4]).getD 2 0 - ([(1 : ℚ), 2, 4]).getD 1 0)
            / ([(1 : ℚ), 2, 4]).getD 1 0 :=
  ⟨(returns_series_computation [5]).1 (by decide),
   ((returns_series_computation [1, 2, 4]).2 (by decide)).1,
   ((returns_series_computation [1, 2, 4]).2 (by decide)).2 1 (by decide)⟩

/-- C7: pipeline failure atomicity.  If any asset's awaited history
fetch rejects, the uncaught error reaches the catch of fetchCorrMatrix
and the whole result is the empty matrix and the empty ranked list -
never a partial matrix or partial ranking. -/
theorem pipeline_failure_atomicity (assets : List Asset) (fetch : String → FetchOutcome)
    (h : ∃ a ∈ assets, (fetch a.name).isThrew = true) :
    fetchCorrMatrix assets fetch = ⟨[], []⟩ := by
  rcases collectReturns_error assets fetch h with ⟨e, he⟩
  rw [fetchCorrMatrix, he]

/-- Witness for C7 with a rejecting fetch. -/
theorem pipeline_failure_atomicity_witness :
    fetchCorrMatrix [⟨"A", 1, 1, 0⟩] (fun _ => .threw "network down") = ⟨[], []⟩ :=
  pipeline_failure_atomicity _ _ ⟨⟨"A", 1, 1, 0⟩, by decide, rfl⟩

/-- C8: per-asset failure isolation.  If one asset's fetch delivers a
non-success response or no usable bars (while no fetch rejects), the run
is not aborted: the pipeline result is still built, that asset's return
series is empty, its row is present in the full matrix, and every cell
of its row and of its column is flagged lowData = true. -/
theorem per_asset_failure_isolation (assets : List Asset) (fetch : String → FetchOutcome)
    (X : Asset) (r : HttpResp)
    (hX : X ∈ assets)
    (hall : ∀ a ∈ assets, (fetch a.name).isThrew = false)
    (hr : fetch X.name = .resp r)
    (hfail : r.ok = false ∨ r.body.getD [] = []) :
    fetchCandles r = []
    ∧ fetchCorrMatrix assets fetch = buildResult assets (resolvedReturns assets fetch)
    ∧ resolvedReturns assets fetch X.name = []
    ∧ (lookupRec (buildFullMatrix assets (resolvedReturns assets fetch)) X.name).isSome = true
    ∧ ∀ B ∈ assets,
        ((lookupCell (buildFullMatrix assets (resolvedReturns assets fetch)) X.name B.name).map
            StoredCell.lowData = some true)
        ∧ ((lookupCell (buildFullMatrix assets (resolvedReturns assets fetch)) B.name X.name).map
            StoredCell.lowData = some true) := by
  have hcand : fetchCandles r = [] := by
    rcases hfail with hf | hf
    · exact fetchCandles_notOk r hf
    · exact fetchCandles_noBars r hf
  have hXname : X.name ∈ assets.map Asset.name := List.mem_map.2 ⟨X, hX, rfl⟩
  have hrm : resolvedReturns assets fetch X.name = [] := by
    rw [returnsMapOf_resolved assets fetch X.name hXname, hr]
    simp only [candlesOf, hcand]
    exact computeReturns_short [] (by simp)
  refine ⟨hcand, ?_, hrm, ?_, ?_⟩
  · rw [fetchCorrMatrix, collectReturns_ok assets fetch hall]
    rfl
  · rw [lookupRec_buildFull]
    simp [hXname]
  · intro B hB
    have hBname : B.name ∈ assets.map Asset.name := List.mem_map.2 ⟨B, hB, rfl⟩
    constructor
    · rw [lookupCell_buildFull, if_pos ⟨hXname, hBname⟩]
      simp [cellFor, hrm, pearsonCorr_left_empty]
    · rw [lookupCell_buildFull, if_pos ⟨hBname, hXname⟩]
      simp [cellFor, hrm, pearsonCorr_right_empty]

/-- Witness for C8 with a non-ok response for asset B. -/
theorem per_asset_failure_isolation_witness :
    fetchCandles ⟨false, none⟩ = []
    ∧ resolvedReturns assetsW fetchW "B" = []
    ∧ (lookupCell (buildFullMatrix assetsW (resolvedReturns assetsW fetchW)) "B" "A").map
        StoredCell.lowData = some true := by
  have h := per_asset_failure_isolation assetsW fetchW ⟨"B", 2, 1, 1⟩ ⟨false, none⟩
    (by decide) (by decide) rfl (Or.inl rfl)
  exact ⟨h.1, h.2.2.1, (h.2.2.2.2 ⟨"A", 1, 1, 0⟩ (by decide)).1⟩

/-- C9 counterexample: fetchCandles does not deduplicate by timestamp.
A response with two bars at the same timestamp 1 feeds both closes to
computeReturns; the sorted bar sequence has timestamps [1, 1], which is
not strictly increasing, refuting the claim that the sequence fed to the
return computer has strictly increasing timestamps with at most one
close per timestamp. -/
theorem candle_order_counterexample :
    fetchCandles ⟨true, some [⟨1, 2⟩, ⟨1, 3⟩]⟩ = [2, 3]
    ∧ (sortCandles [⟨1, 2⟩, ⟨1, 3⟩]).map CandleBar.t = [1, 1]
    ∧ ¬ List.Chain' (fun x y => x.t < y.t) (sortCandles [⟨1, 2⟩, ⟨1, 3⟩]) := by
  refine ⟨by decide, by decide, ?_⟩
  have hs : sortCandles [⟨1, 2⟩, ⟨1, 3⟩] = [⟨1, 2⟩, ⟨1, 3⟩] := by decide
  rw [hs]
  intro hch
  rcases List.chain'_cons.1 hch with ⟨hlt, _⟩
  simp at hlt

/-- C9 amended: before a price series is used to compute returns it is
put in non-decreasing timestamp order by a stable sort; no
deduplication is performed, so bars with equal timestamps are all
retained (the sorted list is a permutation of the input), and a
successful non-empty response yields exactly the closes of the sorted
bars. -/
theorem candle_order_amended (candles : List CandleBar) (r : HttpResp)
    (bars : List CandleBar) :
    List.Sorted (fun x y => x.t ≤ y.t) (sortCandles candles)
    ∧ List.Perm (sortCandles candles) candles
    ∧ (r.ok = true → r.body = some bars → bars ≠ [] →
        fetchCandles r = (sortCandles bars).map (fun candle => candle.c)) := by
  refine ⟨List.sorted_insertionSort _ _, List.perm_insertionSort _ _, fun hok hbody hne => ?_⟩
  rw [fetchCandles]
  simp [hok, hbody, hne, sortCandles, List.length_eq_zero]

/-- Witness for the amended C9 on a concrete unsorted response. -/
theorem candle_order_amended_witness :
    fetchCandles ⟨true, some [⟨2, 5⟩, ⟨1, 7⟩]⟩
      = (sortCandles [⟨2, 5⟩, ⟨1, 7⟩]).map (fun candle => candle.c) :=
  (candle_order_amended [] ⟨true, some [⟨2, 5⟩, ⟨1, 7⟩]⟩ [⟨2, 5⟩, ⟨1, 7⟩]).2.2
    rfl rfl (by decide)

/-- C10: cache freshness boundary is exclusive.  A parsed entry with a
truthy data field is used iff now - timestamp is strictly below
604800000 ms; an entry aged exactly 604800000 ms, a malformed entry, and
an entry with a falsy data field are each treated as absent: the stored
payload is removed and a fresh computation runs. -/
theorem cache_freshness_boundary (now ts : ℤ) (d : CachedData) (raw : String) :
    (readCache (some (.parsed ts (some d))) now = .useCache d ↔ now - ts < freshWindowMs)
    ∧ readCache (some (.parsed ts (some d))) (ts + freshWindowMs) = .recompute true
    ∧ readCache (some (.malformed raw)) now = .recompute true
    ∧ readCache (some (.parsed ts none)) now = .recompute true := by
  refine ⟨?_, ?_, rfl, rfl⟩
  · by_cases h : now - ts < freshWindowMs
    · simp [readCache, h]
    · simp [readCache, h]
  · have h : ¬ (ts + freshWindowMs - ts < freshWindowMs) := by omega
    simp [readCache, h]
